import Mathlib

/-!
Shallow embedding of the Tool Connection Manager (`internal/adk/mcp/manager.go`,
type `Manager`) and the Model Provider Factory (`ModelFactory` in the same
package) of the jcp repository, together with proofs of the specified
properties.

Go maps (`map[string]*models.MCPServerConfig`, `map[string]tool.Toolset`) are
embedded as association lists with map-style insert/lookup; Go strings are
embedded as `String`, except where the claims quantify over string surgery
(base-URL normalization, response bodies), where `List Char` is used.
External effectful calls (`mcptoolset.New`, `client.Connect`, the HTTP round
trip, the gemini/vertex SDK constructors) are embedded as oracle parameters,
so that theorems quantify over every possible outcome of the environment.
-/

namespace JCP

/-- Tool-server configuration (`models.MCPServerConfig`); fields as used by
`manager.go`: `cfg.ID`, `cfg.Name`, `cfg.TransportType`, `cfg.Endpoint`,
`cfg.Command`, `cfg.Args`, `cfg.Enabled`. -/
structure MCPServerConfig where
  id : String
  name : String
  transportType : String
  endpoint : String
  command : String
  args : List String
  enabled : Bool
deriving DecidableEq

/-- Modelled from the spec: the transport-kind constant for the deprecated
event-stream transport (`models.MCPTransportSSE`); the constant's literal
value is not under `src/`, only its use in `createTransport`'s switch. -/
def MCPTransportSSE : String := "sse"

/-- Modelled from the spec: the transport-kind constant for the
subprocess-command transport (`models.MCPTransportCommand`); the constant's
literal value is not under `src/`, only its use in `createTransport`'s
switch. -/
def MCPTransportCommand : String := "command"

/-- The three transports `createTransport` can construct
(`mcp.SSEClientTransport`, `mcp.CommandTransport`,
`mcp.StreamableClientTransport`), with the fields `manager.go` sets. -/
inductive Transport where
  | sseClient (endpoint : String)
  | commandTransport (command : String) (args : List String)
  | streamableClient (endpoint : String) (maxRetries : Nat)
deriving DecidableEq

/-- Embeds `createTransport` (manager.go:110-125): switch on `cfg.TransportType`
with the streamable-HTTP transport (`MaxRetries: 3`) as the default case. -/
def createTransport (cfg : MCPServerConfig) : Transport :=
  if cfg.transportType = MCPTransportSSE then
    .sseClient cfg.endpoint
  else if cfg.transportType = MCPTransportCommand then
    .commandTransport cfg.command cfg.args
  else
    .streamableClient cfg.endpoint 3

/-- Association-list lookup, embedding Go map read `m[k]`. -/
def lookupA {V : Type} (k : String) : List (String × V) → Option V
  | [] => none
  | (k₁, v) :: rest => if k₁ = k then some v else lookupA k rest

/-- Association-list insert, embedding Go map write `m[k] = v`. -/
def insertA {V : Type} (k : String) (v : V) : List (String × V) → List (String × V)
  | [] => [(k, v)]
  | (k₁, v₁) :: rest => if k₁ = k then (k, v) :: rest else (k₁, v₁) :: insertA k v rest

/-- The key set of an embedded Go map. -/
def keysA {V : Type} (m : List (String × V)) : List String := m.map (·.1)

/-- Manager state (manager.go:38-43): the bound context (`ctx`, `nil` until
`Initialize`), the enabled-config map (`configs`), and the toolset cache
(`toolsets`). Contexts are identified by a `Nat` token; the toolset type `T`
is abstract. -/
structure Manager (T : Type) where
  ctx : Option Nat
  configs : List (String × MCPServerConfig)
  toolsets : List (String × T)
deriving DecidableEq

/-- Embeds `NewManager` (manager.go:46-51). -/
def newManager {T : Type} : Manager T :=
  { ctx := none, configs := [], toolsets := [] }

/-- One iteration of the pre-initialization loop of `Initialize`
(manager.go:61-72): skip ids already cached, build via the
`mcptoolset.New` oracle, skip failures, cache successes. -/
def initStep {T : Type} (build : MCPServerConfig → Option T)
    (ts : List (String × T)) (e : String × MCPServerConfig) : List (String × T) :=
  if (lookupA e.1 ts).isSome then ts
  else
    match build e.2 with
    | none => ts
    | some t => insertA e.1 t ts

/-- Embeds `Manager.Initialize` (manager.go:54-74): bind the context, then
best-effort pre-build a toolset for every configured id. The Go method
always returns `nil`, so no error component is modelled. -/
def initMgr {T : Type} (build : MCPServerConfig → Option T) (c : Nat)
    (m : Manager T) : Manager T :=
  { ctx := some c
    configs := m.configs
    toolsets := m.configs.foldl (initStep build) m.toolsets }

/-- The config-loading loop of `LoadConfigs` (manager.go:85-92): skip
disabled entries, insert the rest keyed by id. -/
def loadEnabled (cfgs : List MCPServerConfig) : List (String × MCPServerConfig) :=
  cfgs.foldl (fun acc cfg => if cfg.enabled then insertA cfg.id cfg acc else acc) []

/-- One iteration of the eager rebuild loop of `LoadConfigs`
(manager.go:96-104): build via the oracle, skip failures, cache successes. -/
def eagerStep {T : Type} (build : MCPServerConfig → Option T)
    (ts : List (String × T)) (e : String × MCPServerConfig) : List (String × T) :=
  match build e.2 with
  | none => ts
  | some t => insertA e.1 t ts

/-- Embeds `Manager.LoadConfigs` (manager.go:77-107): replace both maps with fresh
ones, keep the enabled entries, and — when a context is already bound —
eagerly rebuild toolsets for the new set. Always returns `nil`. -/
def loadConfigs {T : Type} (build : MCPServerConfig → Option T)
    (cfgs : List MCPServerConfig) (m : Manager T) : Manager T :=
  { ctx := m.ctx
    configs := loadEnabled cfgs
    toolsets :=
      if m.ctx.isSome then (loadEnabled cfgs).foldl (eagerStep build) [] else [] }

/-- One iteration of the loop of `GetToolsetsByIDs` (manager.go:152-174):
cached toolset, else build-and-cache from the config, else skip silently. -/
def getStep {T : Type} (build : MCPServerConfig → Option T)
    (st : Manager T × List T) (id : String) : Manager T × List T :=
  match lookupA id st.1.toolsets with
  | some ts => (st.1, st.2 ++ [ts])
  | none =>
    match lookupA id st.1.configs with
    | none => st
    | some cfg =>
      match build cfg with
      | none => st
      | some ts =>
        ({ st.1 with toolsets := insertA id ts st.1.toolsets }, st.2 ++ [ts])

/-- Embeds `Manager.GetToolsetsByIDs` (manager.go:146-177): fold the per-id step
over the requested ids, returning the updated manager and the collected
toolsets. -/
def getToolsetsByIDs {T : Type} (build : MCPServerConfig → Option T)
    (ids : List String) (m : Manager T) : Manager T × List T :=
  ids.foldl (getStep build) (m, [])

/-- One iteration of the loop of `GetAllToolsets` (manager.go:185-198):
like `getStep`, but driven by a config entry rather than a bare id. -/
def getAllStep {T : Type} (build : MCPServerConfig → Option T)
    (st : Manager T × List T) (e : String × MCPServerConfig) : Manager T × List T :=
  match lookupA e.1 st.1.toolsets with
  | some ts => (st.1, st.2 ++ [ts])
  | none =>
    match build e.2 with
    | none => st
    | some ts =>
      ({ st.1 with toolsets := insertA e.1 ts st.1.toolsets }, st.2 ++ [ts])

/-- Embeds `Manager.GetAllToolsets` (manager.go:180-200): fold the per-entry step
over every enabled config. -/
def getAllToolsets {T : Type} (build : MCPServerConfig → Option T)
    (m : Manager T) : Manager T × List T :=
  m.configs.foldl (getAllStep build) (m, [])

/-- Embeds `ServerStatus` (manager.go:22-26). -/
structure ServerStatus where
  id : String
  connected : Bool
  error : String
deriving DecidableEq

/-- Embeds `Manager.GetAllStatus` (manager.go:203-212): one record per configured
id, with the `Connected` and `Error` fields left at their zero values. -/
def getAllStatus {T : Type} (m : Manager T) : List ServerStatus :=
  m.configs.map (fun e => { id := e.1, connected := false, error := "" })

/-- Embeds `Manager.TestConnection` (manager.go:215-238): unknown id yields the
fixed not-configured record; otherwise the `client.Connect` probe oracle
decides the outcome (`none` = connected, `some e` = failure message). -/
def testConnection {T : Type} (probe : MCPServerConfig → Option String)
    (m : Manager T) (serverID : String) : ServerStatus :=
  match lookupA serverID m.configs with
  | none => { id := serverID, connected := false, error := "服务器未配置" }
  | some cfg =>
    match probe cfg with
    | some e => { id := serverID, connected := false, error := e }
    | none => { id := serverID, connected := true, error := "" }

/-- Generation-provider configuration (`models.AIConfig`); fields as used by
the factory: `Provider`, `UseResponses`, `APIKey`, `CredentialsJSON`,
`Project`, `Location`, `ModelName`, `BaseURL`. The base URL is kept as a
character list because the normalization claims quantify over its shape. -/
structure AIConfig where
  provider : String
  useResponses : Bool
  apiKey : String
  credentialsJSON : String
  project : String
  location : String
  modelName : String
  baseURL : List Char
deriving DecidableEq

/-- Modelled from the spec: the provider-kind constant for the API-key
Gemini backend (`models.AIProviderGemini`); the constant's literal value is
not under `src/`, only its use in the factory's switches. -/
def AIProviderGemini : String := "gemini"

/-- Modelled from the spec: the provider-kind constant for the cloud-hosted
Vertex backend (`models.AIProviderVertexAI`); the constant's literal value
is not under `src/`, only its use in the factory's switches. -/
def AIProviderVertexAI : String := "vertex"

/-- Modelled from the spec: the provider-kind constant for the
OpenAI-compatible backends (`models.AIProviderOpenAI`, chat vs. responses
selected by `UseResponses`); the constant's literal value is not under
`src/`, only its use in the factory's switches. -/
def AIProviderOpenAI : String := "openai"

/-- Embeds `strings.TrimRight(baseURL, "/")`: remove every trailing slash. -/
def trimRightSlashes (s : List Char) : List Char :=
  (s.reverse.dropWhile (· = '/')).reverse

/-- Embeds `strings.HasSuffix(s, suf)` on character lists. -/
def hasSuffixCL (s suf : List Char) : Bool :=
  decide (suf.length ≤ s.length ∧ s.drop (s.length - suf.length) = suf)

/-- Embeds `normalizeOpenAIBaseURL` (manager.go part 2, lines 418-427): empty
string becomes the canonical default, otherwise trailing slashes are
stripped and `/v1` is appended unless already the suffix. -/
def normalizeOpenAIBaseURL (baseURL : List Char) : List Char :=
  if baseURL = [] then
    "https://api.openai.com/v1".toList
  else if hasSuffixCL (trimRightSlashes baseURL) "/v1".toList then
    trimRightSlashes baseURL
  else
    trimRightSlashes baseURL ++ "/v1".toList

/-- The clients `ModelFactory.CreateModel` can produce, carrying the
configuration data the corresponding Go constructor consumes. The
gemini/vertex constructors also perform external work (SDK and credential
calls), so `createModel` receives their outcome as oracles. -/
inductive ModelClient where
  | geminiClient (modelName apiKey : String)
  | vertexClient (modelName project location : String)
  | openaiChat (modelName apiKey : String) (baseURL : List Char)
  | openaiResponses (modelName apiKey : String) (baseURL : List Char)
deriving DecidableEq

/-- Embeds `ModelFactory.CreateModel` (manager.go part 2, lines 331-345): switch on
`config.Provider`; the gemini and vertex branches defer to their external
constructors (oracle outcomes `geminiResult`, `vertexResult`), the OpenAI
branch picks chat vs. responses by `UseResponses` and never fails, and any
other provider is an immediate error. -/
def createModel (geminiResult vertexResult : Except String ModelClient)
    (config : AIConfig) : Except String ModelClient :=
  if config.provider = AIProviderGemini then
    geminiResult
  else if config.provider = AIProviderVertexAI then
    vertexResult
  else if config.provider = AIProviderOpenAI then
    if config.useResponses then
      .ok (.openaiResponses config.modelName config.apiKey
        (normalizeOpenAIBaseURL config.baseURL))
    else
      .ok (.openaiChat config.modelName config.apiKey
        (normalizeOpenAIBaseURL config.baseURL))
  else
    .error ("unsupported provider: " ++ config.provider)

/-- An HTTP response as observed by `testOpenAIConnection`: status code and
response body (bytes embedded as characters). -/
structure HTTPResponse where
  statusCode : Nat
  body : List Char
deriving DecidableEq

/-- The response handling of `testOpenAIConnection` (manager.go part 2,
lines 501-506): `nil` on status 200, otherwise
`fmt.Errorf("HTTP %d: %s", status, body-limited-to-512-bytes)`
(`io.LimitReader(resp.Body, 512)`). -/
def testOpenAIConnection (resp : HTTPResponse) : Option (List Char) :=
  if resp.statusCode = 200 then none
  else
    some ("HTTP ".toList ++ (toString resp.statusCode).toList ++ ": ".toList
      ++ resp.body.take 512)

/-- Embeds `ModelFactory.TestConnection` (manager.go part 2, lines 454-468): switch
on `config.Provider`; the OpenAI branch runs the minimal chat request whose
received response is `openaiResp`, the gemini/vertex branches run their
build-then-generate probes (oracle outcomes), and any other provider is an
immediate error. -/
def factoryTestConnection (openaiResp : HTTPResponse)
    (geminiProbe vertexProbe : Option (List Char)) (config : AIConfig) :
    Option (List Char) :=
  if config.provider = AIProviderOpenAI then
    testOpenAIConnection openaiResp
  else if config.provider = AIProviderGemini then
    geminiProbe
  else if config.provider = AIProviderVertexAI then
    vertexProbe
  else
    some ("不支持的 provider: ".toList ++ config.provider.toList)

/-- Predicate: `needle` occurs contiguously inside `hay`. -/
def containsSeg (needle hay : List Char) : Prop :=
  ∃ l r, hay = l ++ needle ++ r

/-- The cache-coherence invariant of the spec:
`keys(connection cache) ⊆ keys(enabled config set)`. -/
def cacheInv {T : Type} (m : Manager T) : Prop :=
  keysA m.toolsets ⊆ keysA m.configs

/-- Fixture: an enabled tool-server config. -/
def cfgFixA : MCPServerConfig :=
  { id := "a", name := "A", transportType := "streamable", endpoint := "http://a"
    command := "", args := [], enabled := true }

/-- Fixture: a disabled tool-server config. -/
def cfgFixB : MCPServerConfig :=
  { id := "b", name := "B", transportType := "streamable", endpoint := "http://b"
    command := "", args := [], enabled := false }

/-- Fixture: a build oracle that always succeeds with toolset `0`. -/
def buildFix : MCPServerConfig → Option Nat := fun _ => some 0

/-- Fixture: a build oracle that always fails. -/
def buildFixNone : MCPServerConfig → Option Nat := fun _ => none

/-- Fixture: a probe oracle that always reports success. -/
def probeFixOk : MCPServerConfig → Option String := fun _ => none

/-- Fixture: a probe oracle that always reports a failure message. -/
def probeFixErr : MCPServerConfig → Option String := fun _ => some "boom"

/-- Fixture: a manager holding one enabled config and no cache. -/
def mgrFix : Manager Nat :=
  loadConfigs buildFix [cfgFixA, cfgFixB] (newManager (T := Nat))

/-- Fixture: a generation-provider config with an unknown provider kind. -/
def aiCfgFixBad : AIConfig :=
  { provider := "bogus", useResponses := false, apiKey := "k"
    credentialsJSON := "", project := "", location := ""
    modelName := "m", baseURL := [] }

theorem lookupA_eq_none_iff {V : Type} (k : String) (m : List (String × V)) :
    lookupA k m = none ↔ k ∉ keysA m := by
  induction m with
  | nil => simp [lookupA, keysA]
  | cons e rest ih =>
    obtain ⟨k₁, v⟩ := e
    by_cases hk : k₁ = k
    · subst hk
      simp [lookupA, keysA]
    · simp [lookupA, keysA, hk, ih, Ne.symm hk]

theorem lookupA_mem_keysA {V : Type} {k : String} {m : List (String × V)} {v : V}
    (h : lookupA k m = some v) : k ∈ keysA m := by
  by_contra hk
  rw [← lookupA_eq_none_iff] at hk
  rw [h] at hk
  exact Option.noConfusion hk

theorem keysA_nil {V : Type} : keysA ([] : List (String × V)) = [] := rfl

theorem keysA_cons {V : Type} (e : String × V) (m : List (String × V)) :
    keysA (e :: m) = e.1 :: keysA m := rfl

theorem mem_keysA_insertA {V : Type} (a k : String) (v : V) (m : List (String × V)) :
    a ∈ keysA (insertA k v m) ↔ a = k ∨ a ∈ keysA m := by
  induction m with
  | nil =>
    simp only [insertA, keysA_cons, keysA_nil, List.mem_cons, List.not_mem_nil]
  | cons e rest ih =>
    obtain ⟨k₁, v₁⟩ := e
    by_cases hk : k₁ = k
    · subst hk
      simp only [insertA, if_pos rfl, keysA_cons, List.mem_cons, if_true,
        eq_self_iff_true]
      tauto
    · simp only [insertA, if_neg hk, keysA_cons, List.mem_cons, ih]
      tauto

theorem lookupA_insertA {V : Type} (a k : String) (v : V) (m : List (String × V)) :
    lookupA a (insertA k v m) = if k = a then some v else lookupA a m := by
  induction m with
  | nil => simp [insertA, lookupA]
  | cons e rest ih =>
    obtain ⟨k₁, v₁⟩ := e
    by_cases hk : k₁ = k
    · subst hk
      by_cases ha : k₁ = a
      · subst ha
        simp [insertA, lookupA]
      · simp [insertA, lookupA, ha]
    · by_cases ha : k₁ = a
      · subst ha
        have hka : ¬ k = k₁ := fun h => hk h.symm
        simp [insertA, lookupA, hk, hka]
      · simp [insertA, lookupA, hk, ha, ih]

theorem foldl_keys_bound {T : Type} (K : List String)
    (f : List (String × T) → (String × MCPServerConfig) → List (String × T))
    (hf : ∀ ts e a, a ∈ keysA (f ts e) → a = e.1 ∨ a ∈ keysA ts) :
    ∀ (l : List (String × MCPServerConfig)) (ts : List (String × T)),
      (∀ a ∈ keysA ts, a ∈ K) → (∀ e ∈ l, e.1 ∈ K) →
      ∀ a ∈ keysA (l.foldl f ts), a ∈ K := by
  intro l
  induction l with
  | nil =>
    intro ts hts _ a ha
    exact hts a ha
  | cons e rest ih =>
    intro ts hts hl a ha
    simp only [List.foldl_cons] at ha
    refine ih (f ts e) ?_ (fun e' he' => hl e' (List.mem_cons_of_mem _ he')) a ha
    intro b hb
    rcases hf ts e b hb with h | h
    · exact h ▸ hl e (List.mem_cons_self _ _)
    · exact hts b h

theorem initStep_keys {T : Type} (build : MCPServerConfig → Option T)
    (ts : List (String × T)) (e : String × MCPServerConfig) (a : String)
    (ha : a ∈ keysA (initStep build ts e)) : a = e.1 ∨ a ∈ keysA ts := by
  unfold initStep at ha
  by_cases h : (lookupA e.1 ts).isSome
  · rw [if_pos h] at ha
    exact Or.inr ha
  · rw [if_neg h] at ha
    cases hb : build e.2 with
    | none =>
      rw [hb] at ha
      exact Or.inr ha
    | some t =>
      rw [hb] at ha
      exact (mem_keysA_insertA a e.1 t ts).1 ha

theorem eagerStep_keys {T : Type} (build : MCPServerConfig → Option T)
    (ts : List (String × T)) (e : String × MCPServerConfig) (a : String)
    (ha : a ∈ keysA (eagerStep build ts e)) : a = e.1 ∨ a ∈ keysA ts := by
  unfold eagerStep at ha
  cases hb : build e.2 with
  | none =>
    rw [hb] at ha
    exact Or.inr ha
  | some t =>
    rw [hb] at ha
    exact (mem_keysA_insertA a e.1 t ts).1 ha

theorem cacheInv_initMgr {T : Type} (build : MCPServerConfig → Option T)
    (c : Nat) (m : Manager T) (h : cacheInv m) : cacheInv (initMgr build c m) := by
  intro a ha
  exact foldl_keys_bound (keysA m.configs) (initStep build)
    (initStep_keys build) m.configs m.toolsets (fun b hb => h hb)
    (fun e he => List.mem_map_of_mem _ he) a ha

theorem cacheInv_loadConfigs {T : Type} (build : MCPServerConfig → Option T)
    (cfgs : List MCPServerConfig) (m : Manager T) :
    cacheInv (loadConfigs build cfgs m) := by
  intro a ha
  simp only [loadConfigs] at ha ⊢
  by_cases hc : m.ctx.isSome
  · rw [if_pos hc] at ha
    exact foldl_keys_bound (keysA (loadEnabled cfgs)) (eagerStep build)
      (eagerStep_keys build) (loadEnabled cfgs) []
      (fun b hb => absurd hb (by simp [keysA_nil]))
      (fun e he => List.mem_map_of_mem _ he) a ha
  · rw [if_neg hc] at ha
    exact absurd ha (by simp [keysA_nil])

theorem getStep_cached {T : Type} (build : MCPServerConfig → Option T)
    (st : Manager T × List T) (id : String) (ts : T)
    (hts : lookupA id st.1.toolsets = some ts) :
    getStep build st id = (st.1, st.2 ++ [ts]) := by
  simp [getStep, hts]

theorem getStep_skip_missing {T : Type} (build : MCPServerConfig → Option T)
    (st : Manager T × List T) (id : String)
    (hts : lookupA id st.1.toolsets = none)
    (hcfg : lookupA id st.1.configs = none) :
    getStep build st id = st := by
  simp [getStep, hts, hcfg]

theorem getStep_build_fail {T : Type} (build : MCPServerConfig → Option T)
    (st : Manager T × List T) (id : String) (cfg : MCPServerConfig)
    (hts : lookupA id st.1.toolsets = none)
    (hcfg : lookupA id st.1.configs = some cfg)
    (hb : build cfg = none) :
    getStep build st id = st := by
  simp [getStep, hts, hcfg, hb]

theorem getStep_build_ok {T : Type} (build : MCPServerConfig → Option T)
    (st : Manager T × List T) (id : String) (cfg : MCPServerConfig) (ts : T)
    (hts : lookupA id st.1.toolsets = none)
    (hcfg : lookupA id st.1.configs = some cfg)
    (hb : build cfg = some ts) :
    getStep build st id
      = ({ st.1 with toolsets := insertA id ts st.1.toolsets }, st.2 ++ [ts]) := by
  simp [getStep, hts, hcfg, hb]

theorem getStep_state {T : Type} (build : MCPServerConfig → Option T)
    (st : Manager T × List T) (id : String) :
    (getStep build st id).1.configs = st.1.configs
    ∧ (getStep build st id).1.ctx = st.1.ctx
    ∧ (cacheInv st.1 → cacheInv (getStep build st id).1) := by
  cases hts : lookupA id st.1.toolsets with
  | some ts =>
    rw [getStep_cached build st id ts hts]
    exact ⟨rfl, rfl, fun h => h⟩
  | none =>
    cases hcfg : lookupA id st.1.configs with
    | none =>
      rw [getStep_skip_missing build st id hts hcfg]
      exact ⟨rfl, rfl, fun h => h⟩
    | some cfg =>
      cases hb : build cfg with
      | none =>
        rw [getStep_build_fail build st id cfg hts hcfg hb]
        exact ⟨rfl, rfl, fun h => h⟩
      | some ts =>
        rw [getStep_build_ok build st id cfg ts hts hcfg hb]
        refine ⟨rfl, rfl, fun hinv a ha => ?_⟩
        rcases (mem_keysA_insertA a id ts st.1.toolsets).1 ha with h | h
        · subst h
          exact lookupA_mem_keysA hcfg
        · exact hinv h

theorem getFold_state {T : Type} (build : MCPServerConfig → Option T) :
    ∀ (ids : List String) (st : Manager T × List T),
      (ids.foldl (getStep build) st).1.configs = st.1.configs
      ∧ (ids.foldl (getStep build) st).1.ctx = st.1.ctx
      ∧ (cacheInv st.1 → cacheInv (ids.foldl (getStep build) st).1) := by
  intro ids
  induction ids with
  | nil =>
    intro st
    exact ⟨rfl, rfl, fun h => h⟩
  | cons id rest ih =>
    intro st
    simp only [List.foldl_cons]
    obtain ⟨h1, h2, h3⟩ := getStep_state build st id
    obtain ⟨g1, g2, g3⟩ := ih (getStep build st id)
    exact ⟨g1.trans h1, g2.trans h2, fun hi => g3 (h3 hi)⟩

theorem getAllStep_cached {T : Type} (build : MCPServerConfig → Option T)
    (st : Manager T × List T) (e : String × MCPServerConfig) (ts : T)
    (hts : lookupA e.1 st.1.toolsets = some ts) :
    getAllStep build st e = (st.1, st.2 ++ [ts]) := by
  simp [getAllStep, hts]

theorem getAllStep_build_fail {T : Type} (build : MCPServerConfig → Option T)
    (st : Manager T × List T) (e : String × MCPServerConfig)
    (hts : lookupA e.1 st.1.toolsets = none)
    (hb : build e.2 = none) :
    getAllStep build st e = st := by
  simp [getAllStep, hts, hb]

theorem getAllStep_build_ok {T : Type} (build : MCPServerConfig → Option T)
    (st : Manager T × List T) (e : String × MCPServerConfig) (ts : T)
    (hts : lookupA e.1 st.1.toolsets = none)
    (hb : build e.2 = some ts) :
    getAllStep build st e
      = ({ st.1 with toolsets := insertA e.1 ts st.1.toolsets }, st.2 ++ [ts]) := by
  simp [getAllStep, hts, hb]

theorem getAllStep_state {T : Type} (build : MCPServerConfig → Option T)
    (st : Manager T × List T) (e : String × MCPServerConfig) :
    (getAllStep build st e).1.configs = st.1.configs
    ∧ (getAllStep build st e).1.ctx = st.1.ctx
    ∧ (cacheInv st.1 → e.1 ∈ keysA st.1.configs → cacheInv (getAllStep build st e).1) := by
  cases hts : lookupA e.1 st.1.toolsets with
  | some ts =>
    rw [getAllStep_cached build st e ts hts]
    exact ⟨rfl, rfl, fun h _ => h⟩
  | none =>
    cases hb : build e.2 with
    | none =>
      rw [getAllStep_build_fail build st e hts hb]
      exact ⟨rfl, rfl, fun h _ => h⟩
    | some ts =>
      rw [getAllStep_build_ok build st e ts hts hb]
      refine ⟨rfl, rfl, fun hinv he a ha => ?_⟩
      rcases (mem_keysA_insertA a e.1 ts st.1.toolsets).1 ha with h | h
      · exact h ▸ he
      · exact hinv h

theorem getAllFold_state {T : Type} (build : MCPServerConfig → Option T) :
    ∀ (l : List (String × MCPServerConfig)) (st : Manager T × List T),
      (∀ e ∈ l, e.1 ∈ keysA st.1.configs) →
      (l.foldl (getAllStep build) st).1.configs = st.1.configs
      ∧ (l.foldl (getAllStep build) st).1.ctx = st.1.ctx
      ∧ (cacheInv st.1 → cacheInv (l.foldl (getAllStep build) st).1) := by
  intro l
  induction l with
  | nil =>
    intro st _
    exact ⟨rfl, rfl, fun h => h⟩
  | cons e rest ih =>
    intro st hl
    simp only [List.foldl_cons]
    obtain ⟨h1, h2, h3⟩ := getAllStep_state build st e
    obtain ⟨g1, g2, g3⟩ := ih (getAllStep build st e)
      (fun e' he' => h1 ▸ hl e' (List.mem_cons_of_mem _ he'))
    exact ⟨g1.trans h1, g2.trans h2,
      fun hi => g3 (h3 hi (hl e (List.mem_cons_self _ _)))⟩

theorem getStep_acc {T : Type} (build : MCPServerConfig → Option T)
    (m : Manager T) (acc : List T) (id : String) :
    getStep build (m, acc) id
      = ((getStep build (m, []) id).1, acc ++ (getStep build (m, []) id).2) := by
  cases hts : lookupA id m.toolsets with
  | some ts =>
    rw [getStep_cached build (m, acc) id ts hts, getStep_cached build (m, []) id ts hts]
    simp
  | none =>
    cases hcfg : lookupA id m.configs with
    | none =>
      rw [getStep_skip_missing build (m, acc) id hts hcfg,
        getStep_skip_missing build (m, []) id hts hcfg]
      simp
    | some cfg =>
      cases hb : build cfg with
      | none =>
        rw [getStep_build_fail build (m, acc) id cfg hts hcfg hb,
          getStep_build_fail build (m, []) id cfg hts hcfg hb]
        simp
      | some ts =>
        rw [getStep_build_ok build (m, acc) id cfg ts hts hcfg hb,
          getStep_build_ok build (m, []) id cfg ts hts hcfg hb]
        simp

theorem getStep_out_len {T : Type} (build : MCPServerConfig → Option T)
    (m : Manager T) (id : String) :
    (getStep build (m, ([] : List T)) id).2.length ≤ 1 := by
  cases hts : lookupA id m.toolsets with
  | some ts =>
    rw [getStep_cached build (m, []) id ts hts]
    simp
  | none =>
    cases hcfg : lookupA id m.configs with
    | none =>
      rw [getStep_skip_missing build (m, []) id hts hcfg]
      simp
    | some cfg =>
      cases hb : build cfg with
      | none =>
        rw [getStep_build_fail build (m, []) id cfg hts hcfg hb]
        simp
      | some ts =>
        rw [getStep_build_ok build (m, []) id cfg ts hts hcfg hb]
        simp

theorem getFold_acc {T : Type} (build : MCPServerConfig → Option T) :
    ∀ (ids : List String) (m : Manager T) (acc : List T),
      ids.foldl (getStep build) (m, acc)
        = ((ids.foldl (getStep build) (m, [])).1,
            acc ++ (ids.foldl (getStep build) (m, [])).2) := by
  intro ids
  induction ids with
  | nil =>
    intro m acc
    simp
  | cons id rest ih =>
    intro m acc
    simp only [List.foldl_cons]
    obtain ⟨m₁, d, hE⟩ : ∃ m₁ d, getStep build (m, ([] : List T)) id = (m₁, d) :=
      ⟨_, _, rfl⟩
    rw [getStep_acc build m acc id, hE]
    rw [ih m₁ (acc ++ d), ih m₁ d]
    simp

theorem getToolsets_cons {T : Type} (build : MCPServerConfig → Option T)
    (id : String) (rest : List String) (m : Manager T) :
    getToolsetsByIDs build (id :: rest) m
      = ((getToolsetsByIDs build rest (getStep build (m, []) id).1).1,
          (getStep build (m, []) id).2
            ++ (getToolsetsByIDs build rest (getStep build (m, []) id).1).2) := by
  unfold getToolsetsByIDs
  simp only [List.foldl_cons]
  obtain ⟨m₁, d, hE⟩ : ∃ m₁ d, getStep build (m, ([] : List T)) id = (m₁, d) :=
    ⟨_, _, rfl⟩
  rw [hE]
  exact getFold_acc build rest m₁ d

theorem getToolsets_len_le {T : Type} (build : MCPServerConfig → Option T) :
    ∀ (ids : List String) (m : Manager T),
      (getToolsetsByIDs build ids m).2.length ≤ ids.length := by
  intro ids
  induction ids with
  | nil =>
    intro m
    simp [getToolsetsByIDs]
  | cons id rest ih =>
    intro m
    rw [getToolsets_cons build id rest m]
    simp only [List.length_cons, List.length_append]
    have h1 := getStep_out_len build m id
    have h2 := ih (getStep build (m, []) id).1
    omega

theorem getToolsets_all_missing {T : Type} (build : MCPServerConfig → Option T) :
    ∀ (ids : List String) (m : Manager T),
      cacheInv m → (∀ i ∈ ids, i ∉ keysA m.configs) →
      getToolsetsByIDs build ids m = (m, []) := by
  intro ids
  induction ids with
  | nil =>
    intro m _ _
    rfl
  | cons id rest ih =>
    intro m hinv hmiss
    have hid : id ∉ keysA m.configs := hmiss id (List.mem_cons_self _ _)
    have hts : lookupA id m.toolsets = none := by
      rw [lookupA_eq_none_iff]
      exact fun h => hid (hinv h)
    have hcfg : lookupA id m.configs = none := (lookupA_eq_none_iff _ _).2 hid
    rw [getToolsets_cons build id rest m,
      getStep_skip_missing build (m, []) id hts hcfg]
    rw [ih m hinv (fun i hi => hmiss i (List.mem_cons_of_mem _ hi))]
    simp

theorem mem_keysA_loadEnabled_aux :
    ∀ (l : List MCPServerConfig) (acc : List (String × MCPServerConfig)) (id : String),
      id ∈ keysA (l.foldl
          (fun acc cfg => if cfg.enabled then insertA cfg.id cfg acc else acc) acc)
        ↔ (∃ cfg, cfg ∈ l ∧ cfg.enabled = true ∧ cfg.id = id) ∨ id ∈ keysA acc := by
  intro l
  induction l with
  | nil =>
    intro acc id
    simp
  | cons cfg rest ih =>
    intro acc id
    simp only [List.foldl_cons]
    by_cases he : cfg.enabled = true
    · rw [if_pos he, ih]
      rw [mem_keysA_insertA]
      constructor
      · rintro (⟨c, hc, hce, hci⟩ | h | h)
        · exact Or.inl ⟨c, List.mem_cons_of_mem _ hc, hce, hci⟩
        · exact Or.inl ⟨cfg, List.mem_cons_self _ _, he, h.symm⟩
        · exact Or.inr h
      · rintro (⟨c, hc, hce, hci⟩ | h)
        · rcases List.mem_cons.1 hc with hc | hc
          · subst hc
            exact Or.inr (Or.inl hci.symm)
          · exact Or.inl ⟨c, hc, hce, hci⟩
        · exact Or.inr (Or.inr h)
    · rw [if_neg he, ih]
      constructor
      · rintro (⟨c, hc, hce, hci⟩ | h)
        · exact Or.inl ⟨c, List.mem_cons_of_mem _ hc, hce, hci⟩
        · exact Or.inr h
      · rintro (⟨c, hc, hce, hci⟩ | h)
        · rcases List.mem_cons.1 hc with hc | hc
          · subst hc
            exact absurd hce he
          · exact Or.inl ⟨c, hc, hce, hci⟩
        · exact Or.inr h

theorem mem_keysA_loadEnabled (cfgs : List MCPServerConfig) (id : String) :
    id ∈ keysA (loadEnabled cfgs)
      ↔ ∃ cfg, cfg ∈ cfgs ∧ cfg.enabled = true ∧ cfg.id = id := by
  unfold loadEnabled
  rw [mem_keysA_loadEnabled_aux]
  simp [keysA_nil]

theorem lookupA_loadEnabled_aux :
    ∀ (l : List MCPServerConfig) (acc : List (String × MCPServerConfig))
      (id : String) (cfg : MCPServerConfig),
      lookupA id (l.foldl
          (fun acc cfg => if cfg.enabled then insertA cfg.id cfg acc else acc) acc)
        = some cfg →
      (cfg ∈ l ∧ cfg.enabled = true ∧ cfg.id = id) ∨ lookupA id acc = some cfg := by
  intro l
  induction l with
  | nil =>
    intro acc id cfg h
    exact Or.inr h
  | cons c rest ih =>
    intro acc id cfg h
    simp only [List.foldl_cons] at h
    by_cases he : c.enabled = true
    · rw [if_pos he] at h
      rcases ih _ id cfg h with ⟨hc, hce, hci⟩ | h
      · exact Or.inl ⟨List.mem_cons_of_mem _ hc, hce, hci⟩
      · rw [lookupA_insertA] at h
        by_cases hid : c.id = id
        · rw [if_pos hid] at h
          cases h
          exact Or.inl ⟨List.mem_cons_self _ _, he, hid⟩
        · rw [if_neg hid] at h
          exact Or.inr h
    · rw [if_neg he] at h
      rcases ih _ id cfg h with ⟨hc, hce, hci⟩ | h
      · exact Or.inl ⟨List.mem_cons_of_mem _ hc, hce, hci⟩
      · exact Or.inr h

theorem lookupA_loadEnabled (cfgs : List MCPServerConfig) (id : String)
    (cfg : MCPServerConfig) (h : lookupA id (loadEnabled cfgs) = some cfg) :
    cfg ∈ cfgs ∧ cfg.enabled = true ∧ cfg.id = id := by
  unfold loadEnabled at h
  rcases lookupA_loadEnabled_aux cfgs [] id cfg h with h | h
  · exact h
  · exact absurd h (by simp [lookupA])

theorem trim_append_v1 (t : List Char) :
    trimRightSlashes (t ++ "/v1".toList) = t ++ "/v1".toList := by
  unfold trimRightSlashes
  rw [show "/v1".toList = ['/', 'v', '1'] from rfl, List.reverse_append]
  simp [List.dropWhile]

theorem hasSuffixCL_append (t suf : List Char) :
    hasSuffixCL (t ++ suf) suf = true := by
  unfold hasSuffixCL
  rw [decide_eq_true_iff]
  refine ⟨by simp, ?_⟩
  rw [List.length_append, Nat.add_sub_cancel]
  exact List.drop_left t suf

theorem hasSuffixCL_true {s suf : List Char} (h : hasSuffixCL s suf = true) :
    ∃ t, s = t ++ suf := by
  unfold hasSuffixCL at h
  rw [decide_eq_true_iff] at h
  refine ⟨s.take (s.length - suf.length), ?_⟩
  have hsplit := List.take_append_drop (s.length - suf.length) s
  rw [h.2] at hsplit
  exact hsplit.symm

theorem normalize_shape (s : List Char) :
    ∃ t, normalizeOpenAIBaseURL s = t ++ "/v1".toList := by
  unfold normalizeOpenAIBaseURL
  by_cases hs : s = []
  · rw [if_pos hs]
    exact ⟨"https://api.openai.com".toList, by decide⟩
  · rw [if_neg hs]
    by_cases hsf : hasSuffixCL (trimRightSlashes s) "/v1".toList = true
    · rw [if_pos hsf]
      exact hasSuffixCL_true hsf
    · rw [if_neg hsf]
      exact ⟨trimRightSlashes s, rfl⟩

theorem normalizeOpenAIBaseURL_idem (s : List Char) :
    normalizeOpenAIBaseURL (normalizeOpenAIBaseURL s) = normalizeOpenAIBaseURL s := by
  obtain ⟨t, ht⟩ := normalize_shape s
  rw [ht]
  unfold normalizeOpenAIBaseURL
  have hne : t ++ "/v1".toList ≠ [] := by simp
  rw [if_neg hne, trim_append_v1, if_pos (hasSuffixCL_append t _)]

theorem statusIDs_eq {T : Type} (m : Manager T) :
    (getAllStatus m).map (·.id) = keysA m.configs := by
  unfold getAllStatus keysA
  rw [List.map_map]
  rfl

/-- Claim C1: after Initialize, LoadConfigs, GetToolsetsByIDs and
GetAllToolsets, `keys(connection cache) ⊆ keys(enabled config set)` holds:
each operation only ever caches toolsets under ids present in the enabled
config map, so the invariant is preserved from any state satisfying it
(and LoadConfigs even establishes it unconditionally). -/
theorem C1_cache_subset_invariant {T : Type} (build : MCPServerConfig → Option T)
    (c : Nat) (cfgs : List MCPServerConfig) (ids : List String) (m : Manager T)
    (h : cacheInv m) :
    cacheInv (initMgr build c m)
    ∧ cacheInv (loadConfigs build cfgs m)
    ∧ cacheInv (getToolsetsByIDs build ids m).1
    ∧ cacheInv (getAllToolsets build m).1 := by
  refine ⟨cacheInv_initMgr build c m h, cacheInv_loadConfigs build cfgs m, ?_, ?_⟩
  · exact (getFold_state build ids (m, [])).2.2 h
  · exact (getAllFold_state build m.configs (m, [])
      (fun e he => List.mem_map_of_mem _ he)).2.2 h

/-- Claim C1 witness at a concrete manager state. -/
theorem C1_cache_subset_invariant_witness :
    cacheInv (initMgr buildFix 1 mgrFix)
    ∧ cacheInv (loadConfigs buildFix [cfgFixA, cfgFixB] mgrFix)
    ∧ cacheInv (getToolsetsByIDs buildFix ["a", "missing"] mgrFix).1
    ∧ cacheInv (getAllToolsets buildFix mgrFix).1 :=
  C1_cache_subset_invariant buildFix 1 [cfgFixA, cfgFixB] ["a", "missing"] mgrFix
    (by
      intro a ha
      rw [show mgrFix.toolsets = [] from by decide, keysA_nil] at ha
      exact absurd ha (List.not_mem_nil a))

/-- Claim C2: LoadConfigs replaces the enabled set with exactly the
enabled input entries and drops the whole previous cache: the result does
not depend on the previous maps at all (only on the previous context
binding), and loading the empty list leaves an empty cache and makes
GetAllToolsets return an empty sequence. -/
theorem C2_loadConfigs_replace_all {T : Type} (build : MCPServerConfig → Option T)
    (cfgs : List MCPServerConfig) (m m' : Manager T) (h : m.ctx = m'.ctx) :
    loadConfigs build cfgs m = loadConfigs build cfgs m'
    ∧ (∀ id, id ∈ keysA (loadConfigs build cfgs m).configs
        ↔ ∃ cfg, cfg ∈ cfgs ∧ cfg.enabled = true ∧ cfg.id = id)
    ∧ (∀ id cfg, lookupA id (loadConfigs build cfgs m).configs = some cfg →
        cfg ∈ cfgs ∧ cfg.enabled = true ∧ cfg.id = id)
    ∧ (loadConfigs build [] m).toolsets = []
    ∧ (getAllToolsets build (loadConfigs build [] m)).2 = [] := by
  refine ⟨?_, ?_, ?_, ?_, ?_⟩
  · unfold loadConfigs
    rw [h]
  · intro id
    exact mem_keysA_loadEnabled cfgs id
  · intro id cfg hl
    exact lookupA_loadEnabled cfgs id cfg hl
  · simp only [loadConfigs]
    cases hc : m.ctx.isSome <;> simp [hc, loadEnabled]
  · rfl

/-- Claim C2 witness at a concrete manager pair with equal context. -/
theorem C2_loadConfigs_replace_all_witness :
    loadConfigs buildFix [cfgFixA, cfgFixB] mgrFix
      = loadConfigs buildFix [cfgFixA, cfgFixB] (newManager (T := Nat))
    ∧ (loadConfigs buildFix [] mgrFix).toolsets = [] := by
  have h := C2_loadConfigs_replace_all buildFix [cfgFixA, cfgFixB] mgrFix
    (newManager (T := Nat)) (by decide)
  exact ⟨h.1, (C2_loadConfigs_replace_all buildFix [cfgFixA, cfgFixB] mgrFix
    (newManager (T := Nat)) (by decide)).2.2.2.1⟩

/-- Claim C3: GetToolsetsByIDs processes the input ids in order — on each
id it returns the cached toolset if present, else builds-and-caches from
that id's enabled config, and silently skips an unknown id or a failed
build — so the result length is at most the input length, and a request
made only of unknown ids returns an empty sequence with the manager
unchanged. -/
theorem C3_get_toolsets_by_ids {T : Type} (build : MCPServerConfig → Option T)
    (ids rest : List String) (id : String) (m : Manager T) (h : cacheInv m) :
    (getToolsetsByIDs build ids m).2.length ≤ ids.length
    ∧ ((∀ i, i ∈ ids → i ∉ keysA m.configs) → getToolsetsByIDs build ids m = (m, []))
    ∧ getToolsetsByIDs build (id :: rest) m
        = ((getToolsetsByIDs build rest (getStep build (m, []) id).1).1,
            (getStep build (m, []) id).2
              ++ (getToolsetsByIDs build rest (getStep build (m, []) id).1).2)
    ∧ (∀ ts, lookupA id m.toolsets = some ts → getStep build (m, []) id = (m, [ts]))
    ∧ (∀ cfg ts, lookupA id m.toolsets = none → lookupA id m.configs = some cfg →
        build cfg = some ts →
        getStep build (m, []) id
          = ({ m with toolsets := insertA id ts m.toolsets }, [ts]))
    ∧ (∀ cfg, lookupA id m.toolsets = none → lookupA id m.configs = some cfg →
        build cfg = none → getStep build (m, []) id = (m, []))
    ∧ (lookupA id m.toolsets = none → lookupA id m.configs = none →
        getStep build (m, []) id = (m, [])) := by
  refine ⟨getToolsets_len_le build ids m, ?_, getToolsets_cons build id rest m,
    ?_, ?_, ?_, ?_⟩
  · intro hmiss
    exact getToolsets_all_missing build ids m h hmiss
  · intro ts hts
    simpa using getStep_cached build (m, []) id ts hts
  · intro cfg ts hts hcfg hb
    simpa using getStep_build_ok build (m, []) id cfg ts hts hcfg hb
  · intro cfg hts hcfg hb
    exact getStep_build_fail build (m, []) id cfg hts hcfg hb
  · intro hts hcfg
    exact getStep_skip_missing build (m, []) id hts hcfg

/-- Claim C3 witness: a request for a single unknown id on a concrete
state returns an empty sequence and leaves the manager unchanged. -/
theorem C3_get_toolsets_by_ids_witness :
    getToolsetsByIDs buildFix ["missing"] mgrFix = (mgrFix, []) :=
  (C3_get_toolsets_by_ids buildFix ["missing"] [] "a" mgrFix
    (by
      intro a ha
      rw [show mgrFix.toolsets = [] from by decide, keysA_nil] at ha
      exact absurd ha (List.not_mem_nil a))).2.1 (by decide)

/-- Claim C4: the ids of the records returned by GetAllStatus are exactly
the ids of the loaded enabled configs (after a LoadConfigs, exactly the
enabled input ids — disabled configs never appear), and each record carries
only the configured identity: `Connected` and `Error` stay at their zero
values, so no connectivity is asserted. -/
theorem C4_get_all_status {T : Type} (build : MCPServerConfig → Option T)
    (cfgs : List MCPServerConfig) (m : Manager T) :
    (getAllStatus m).map (·.id) = keysA m.configs
    ∧ (∀ s, s ∈ getAllStatus m → s.connected = false ∧ s.error = "")
    ∧ (∀ id, id ∈ (getAllStatus (loadConfigs build cfgs m)).map (·.id)
        ↔ ∃ cfg, cfg ∈ cfgs ∧ cfg.enabled = true ∧ cfg.id = id) := by
  refine ⟨statusIDs_eq m, ?_, ?_⟩
  · intro s hs
    unfold getAllStatus at hs
    rcases List.mem_map.1 hs with ⟨e, _, rfl⟩
    exact ⟨rfl, rfl⟩
  · intro id
    rw [statusIDs_eq]
    exact mem_keysA_loadEnabled cfgs id

/-- Claim C4 witness at a concrete record of a concrete state. -/
theorem C4_get_all_status_witness :
    ({ id := "a", connected := false, error := "" } : ServerStatus).connected = false
    ∧ ({ id := "a", connected := false, error := "" } : ServerStatus).error = "" :=
  (C4_get_all_status buildFix [] mgrFix).2.1
    { id := "a", connected := false, error := "" } (by decide)

/-- Claim C5 counterexample: on the empty manager, TestConnection of an
unknown id returns the fixed record with error string "服务器未配置",
which is not the literal string "configuration missing" the claim names. -/
theorem C5_counterexample :
    testConnection probeFixOk (newManager (T := Nat)) "missing"
      = { id := "missing", connected := false, error := "服务器未配置" }
    ∧ ("服务器未配置" : String) ≠ "configuration missing" := by
  exact ⟨rfl, by decide⟩

/-- Claim C5 (amended): for every id not in the enabled config set,
TestConnection returns `{connected := false, error := "服务器未配置"}`
(the code's fixed configuration-missing message) without raising, and the
result does not depend on the connection probe at all, so no network
operation is attempted. -/
theorem C5_test_connection_missing {T : Type}
    (probe probe' : MCPServerConfig → Option String) (m : Manager T)
    (id : String) (h : id ∉ keysA m.configs) :
    testConnection probe m id
      = { id := id, connected := false, error := "服务器未配置" }
    ∧ testConnection probe m id = testConnection probe' m id := by
  have hl : lookupA id m.configs = none := (lookupA_eq_none_iff _ _).2 h
  unfold testConnection
  rw [hl]
  exact ⟨rfl, rfl⟩

/-- Claim C5 witness at a concrete unknown id. -/
theorem C5_test_connection_missing_witness :
    testConnection probeFixErr (newManager (T := Nat)) "missing"
      = { id := "missing", connected := false, error := "服务器未配置" } :=
  (C5_test_connection_missing probeFixErr probeFixOk (newManager (T := Nat))
    "missing" (by decide)).1

/-- Claim C6 counterexample: a second Initialize call rebinds the
manager's scope — after Initialize with scope 1 and then Initialize with
scope 2, the bound scope is 2, not the first-bound 1. -/
theorem C6_counterexample :
    (initMgr buildFixNone 1 (newManager (T := Nat))).ctx = some 1
    ∧ (initMgr buildFixNone 2 (initMgr buildFixNone 1 (newManager (T := Nat)))).ctx
        = some 2
    ∧ (some 2 : Option Nat) ≠ some 1 :=
  ⟨rfl, rfl, by decide⟩

/-- Claim C6 (amended): every Initialize call sets the manager's scope to
that call's argument — so a repeated Initialize call rebinds it — and no
other operation (LoadConfigs, GetToolsetsByIDs, GetAllToolsets) ever
changes the bound scope. -/
theorem C6_scope_binding {T : Type} (build : MCPServerConfig → Option T)
    (c : Nat) (cfgs : List MCPServerConfig) (ids : List String) (m : Manager T) :
    (initMgr build c m).ctx = some c
    ∧ (loadConfigs build cfgs m).ctx = m.ctx
    ∧ (getToolsetsByIDs build ids m).1.ctx = m.ctx
    ∧ (getAllToolsets build m).1.ctx = m.ctx := by
  refine ⟨rfl, rfl, ?_, ?_⟩
  · exact (getFold_state build ids (m, [])).2.1
  · exact (getAllFold_state build m.configs (m, [])
      (fun e he => List.mem_map_of_mem _ he)).2.1

/-- Claim C7: the OpenAI base-URL normalization maps the empty string to
the canonical default, maps "http://host/v1/" to "http://host/v1" without
duplicating the version suffix, and is idempotent on every input. -/
theorem C7_normalize_base_url :
    normalizeOpenAIBaseURL "".toList = "https://api.openai.com/v1".toList
    ∧ normalizeOpenAIBaseURL "http://host/v1/".toList = "http://host/v1".toList
    ∧ ∀ s, normalizeOpenAIBaseURL (normalizeOpenAIBaseURL s)
        = normalizeOpenAIBaseURL s :=
  ⟨by decide, by decide, normalizeOpenAIBaseURL_idem⟩

/-- Claim C8: the OpenAI-style probe succeeds exactly on HTTP status 200;
on any other status the failure message contains the numeric status code
and the response body truncated to its first 512 bytes; in particular HTTP
500 with body "server error" yields a message containing "500" and
"server error". -/
theorem C8_openai_probe :
    (∀ resp, testOpenAIConnection resp = none ↔ resp.statusCode = 200)
    ∧ (∀ resp msg, testOpenAIConnection resp = some msg →
        containsSeg (toString resp.statusCode).toList msg
        ∧ containsSeg (resp.body.take 512) msg)
    ∧ testOpenAIConnection { statusCode := 500, body := "server error".toList }
        = some "HTTP 500: server error".toList
    ∧ containsSeg "500".toList "HTTP 500: server error".toList
    ∧ containsSeg "server error".toList "HTTP 500: server error".toList := by
  refine ⟨?_, ?_, by decide, ?_, ?_⟩
  · intro resp
    unfold testOpenAIConnection
    by_cases h : resp.statusCode = 200
    · rw [if_pos h]
      simp [h]
    · rw [if_neg h]
      simp [h]
  · intro resp msg hmsg
    unfold testOpenAIConnection at hmsg
    by_cases h : resp.statusCode = 200
    · rw [if_pos h] at hmsg
      exact absurd hmsg (by simp)
    · rw [if_neg h] at hmsg
      obtain rfl := (Option.some.inj hmsg).symm
      constructor
      · exact ⟨"HTTP ".toList, ": ".toList ++ resp.body.take 512, by simp⟩
      · exact ⟨"HTTP ".toList ++ (toString resp.statusCode).toList ++ ": ".toList,
          [], by simp⟩
  · exact ⟨"HTTP ".toList, ": server error".toList, by decide⟩
  · exact ⟨"HTTP 500: ".toList, [], by decide⟩

/-- Claim C8 witness at the HTTP 500 / "server error" response. -/
theorem C8_openai_probe_witness :
    containsSeg (toString (500 : Nat)).toList "HTTP 500: server error".toList
    ∧ containsSeg ("server error".toList.take 512) "HTTP 500: server error".toList :=
  C8_openai_probe.2.1 { statusCode := 500, body := "server error".toList }
    "HTTP 500: server error".toList (by decide)

/-- Claim C9: for a provider kind that is none of gemini, vertex or the
OpenAI-compatible kinds, both CreateModel and the factory's TestConnection
return the unsupported-provider error immediately, whatever the outcome of
any external constructor or request would have been. -/
theorem C9_unsupported_provider (geminiResult vertexResult : Except String ModelClient)
    (openaiResp : HTTPResponse) (geminiProbe vertexProbe : Option (List Char))
    (config : AIConfig)
    (h1 : config.provider ≠ AIProviderGemini)
    (h2 : config.provider ≠ AIProviderVertexAI)
    (h3 : config.provider ≠ AIProviderOpenAI) :
    createModel geminiResult vertexResult config
      = Except.error ("unsupported provider: " ++ config.provider)
    ∧ factoryTestConnection openaiResp geminiProbe vertexProbe config
      = some ("不支持的 provider: ".toList ++ config.provider.toList) := by
  unfold createModel factoryTestConnection
  rw [if_neg h1, if_neg h2, if_neg h3, if_neg h3, if_neg h1, if_neg h2]
  exact ⟨rfl, rfl⟩

/-- Claim C9 witness at a concrete unknown provider kind. -/
theorem C9_unsupported_provider_witness :
    createModel (Except.error "g") (Except.error "v") aiCfgFixBad
      = Except.error ("unsupported provider: " ++ aiCfgFixBad.provider)
    ∧ factoryTestConnection { statusCode := 200, body := [] } none none aiCfgFixBad
      = some ("不支持的 provider: ".toList ++ aiCfgFixBad.provider.toList) :=
  C9_unsupported_provider (Except.error "g") (Except.error "v")
    { statusCode := 200, body := [] } none none aiCfgFixBad
    (by decide) (by decide) (by decide)

/-- Claim C10: a transport kind that is neither the deprecated
event-stream kind nor the subprocess-command kind — including empty or
unrecognized values — falls through to the streamable-HTTP transport with
the config's endpoint and retry limit 3; transport construction never
fails. -/
theorem C10_transport_default (cfg : MCPServerConfig)
    (h1 : cfg.transportType ≠ MCPTransportSSE)
    (h2 : cfg.transportType ≠ MCPTransportCommand) :
    createTransport cfg = Transport.streamableClient cfg.endpoint 3 := by
  unfold createTransport
  rw [if_neg h1, if_neg h2]

/-- Claim C10 witness at the empty transport kind. -/
theorem C10_transport_default_witness :
    createTransport { cfgFixA with transportType := "" }
      = Transport.streamableClient cfgFixA.endpoint 3 :=
  C10_transport_default { cfgFixA with transportType := "" }
    (by decide) (by decide)

end JCP
